import Mathlib

/-!
Verification development for the TrustChain donation-tracking application
(`src/app.py`).  The mutable state of the application (session lists for
students, ledger and proofs, plus the SQLite-backed proof table) is embedded
shallowly: monetary amounts are rationals, the dynamic per-kind ledger
dictionaries become a record of optional fields, and each Streamlit page
handler becomes a pure state-transformer.  `Step`/`Reachable` capture the
operation histories the UI can produce (including the page-top cache reloads
from the database).
-/

namespace TrustChain

/-- `ADMIN_FEE_RATE = 0.02` from the configuration block of `app.py`. -/
def ADMIN_FEE_RATE : ℚ := 2 / 100

/-- Round a rational to the nearest integer, ties to the even neighbour,
mirroring Python's `round` (banker's rounding). -/
def roundHalfEven (q : ℚ) : ℤ :=
  let f := ⌊q⌋
  let r := q - f
  if r < 1 / 2 then f
  else if 1 / 2 < r then f + 1
  else if f % 2 = 0 then f else f + 1

/-- Python's `round(x, 2)`: round to two decimal places. -/
def pyRound2 (q : ℚ) : ℚ := (roundHalfEven (q * 100) : ℚ) / 100

/-- A row of the `students` table / an element of `st.session_state.students`.
`db_update_student` always persists the full snapshot, so session and DB rows
never diverge and a single record suffices. -/
structure Student where
  id : Nat
  name : String
  need : ℚ
  received : ℚ
  story : String
  doc_hash : Option String
  released : Bool
  admin_charged : Bool
deriving Repr, DecidableEq

/-- A proof record (row of the `proofs` table / element of
`st.session_state.proofs`).  The status field is the literal string stored by
the code: `Submitted`, `Reviewing`, `Verified` or `Rejected`. -/
structure Proof where
  student_id : Nat
  student_name : String
  filename : String
  hash : String
  time : String
  status : String
  file_path : String
deriving Repr, DecidableEq

/-- A ledger entry.  The source builds free-form dictionaries whose keys vary
per entry kind; the union of every key that ever occurs is fixed, so an entry
is a record of optional fields (`none` = key absent).  `released` appears only
in donation entries and `amount_released` only in release entries. -/
structure Entry where
  time : Option String := none
  type : Option String := none
  student_id : Option Nat := none
  student_name : Option String := none
  gross : Option ℚ := none
  student_net : Option ℚ := none
  admin_fee : Option ℚ := none
  student_amount : Option ℚ := none
  filename : Option String := none
  file_hash : Option String := none
  amount_released : Option ℚ := none
  released : Option Bool := none
deriving Repr, DecidableEq

/-- `db_add_ledger` (`app.py` lines 184-203): the `INSERT` names exactly the
ten ledger columns, so only those fields of the entry dictionary are
persisted; any other key (`amount_released`, `released`) is silently
dropped. -/
def db_add_ledger (e : Entry) : Entry :=
  { time := e.time
    type := e.type
    student_id := e.student_id
    student_name := e.student_name
    gross := e.gross
    student_net := e.student_net
    admin_fee := e.admin_fee
    student_amount := e.student_amount
    filename := e.filename
    file_hash := e.file_hash
    amount_released := none
    released := none }

/-- The application state: the session lists plus the DB `proofs` table.
The DB ledger is not tracked separately because it is always the image of the
session ledger under `db_add_ledger` (the projection is idempotent and both
are appended in lockstep by `add_ledger`); the students table likewise always
mirrors the session list. -/
structure AppState where
  students : List Student
  ledger : List Entry
  proofs : List Proof
  proofs_db : List Proof
deriving Repr, DecidableEq

/-- `add_ledger`'s timestamp defaulting: a missing or empty `time` value is
replaced by the current timestamp. -/
def withTime (e : Entry) (t : String) : Entry :=
  match e.time with
  | none => { e with time := some t }
  | some s => if s = "" then { e with time := some t } else e

/-- `add_ledger(entry)` (`app.py` lines 292-300): append to the session ledger
(and, in lockstep, the DB ledger).  `t` stands for the `now_ts()` call. -/
def add_ledger (st : AppState) (e : Entry) (t : String) : AppState :=
  { st with ledger := st.ledger ++ [withTime e t] }

/-- Look a student up by id (`next(s for s in students if s.id == sid)` /
`WHERE id=?`). -/
def getStudent (st : AppState) (sid : Nat) : Option Student :=
  st.students.find? (fun x => x.id == sid)

/-- `db_update_student` plus the in-place session mutation: replace the
student with the given id by the new snapshot. -/
def updateStudent (st : AppState) (s' : Student) : AppState :=
  { st with students := st.students.map (fun x => if x.id == s'.id then s' else x) }

/-- The `proof_verified` check of `try_auto_release` (`app.py` lines 340-344):
does the session proof list contain a `Verified` proof for this student? -/
def proofVerifiedFor (ps : List Proof) (sid : Nat) : Bool :=
  ps.any (fun p => p.student_id == sid && p.status == "Verified")

/-- The `admin_fee` ledger dictionary of `try_auto_release` (`app.py` lines
351-361): `admin_fee = round(need * ADMIN_FEE_RATE, 2)`, `student_amount =
round(need - admin_fee, 2)`.  Only `id`, `name` and `need` of the student are
read, so it is indifferent whether the snapshot before or after the
`released` mutation is passed. -/
def admin_fee_entry (s : Student) (t : String) : Entry :=
  { type := some "admin_fee"
    student_id := some s.id
    student_name := some s.name
    admin_fee := some (pyRound2 (s.need * ADMIN_FEE_RATE))
    student_amount := some (pyRound2 (s.need - pyRound2 (s.need * ADMIN_FEE_RATE)))
    time := some t }

/-- The `release` ledger dictionary of `try_auto_release` (`app.py` lines
366-372): `amount_released = float(student["need"])`. -/
def release_entry (s : Student) (t : String) : Entry :=
  { type := some "release"
    student_id := some s.id
    student_name := some s.name
    amount_released := some s.need
    time := some t }

/-- `try_auto_release(student)` (`app.py` lines 331-380).  `t` stands for the
`now_ts()` calls of the handler body. -/
def tryAutoRelease (st : AppState) (sid : Nat) (t : String) : AppState :=
  match getStudent st sid with
  | none => st
  | some s =>
    if s.need ≤ s.received ∧ proofVerifiedFor st.proofs sid = true ∧ s.released = false then
      let s1 : Student := { s with released := true }
      let p1 : AppState × Student :=
        if s1.admin_charged = false then
          (add_ledger st (admin_fee_entry s t) t, { s1 with admin_charged := true })
        else (st, s1)
      let st2 := add_ledger p1.1 (release_entry s t) t
      updateStudent st2 p1.2
    else st

/-- The student snapshot after a successful release evaluation. -/
def released_student (s : Student) : Student :=
  { s with released := true, admin_charged := true }

/-- The donation ledger dictionary built by the Make Donation handler
(`app.py` lines 571-579); note the extra `released: False` key. -/
def donation_entry (s : Student) (amount : ℚ) (t : String) : Entry :=
  { type := some "donation"
    student_id := some s.id
    student_name := some s.name
    gross := some amount
    student_net := some amount
    released := some false
    time := some t }

/-- The Make Donation page handler for one student (`app.py` lines 521-589):
the donate button exists only when the student is not yet fully funded; on a
click it appends the donation entry, adds the amount to `received`, persists
the student, and invokes the release evaluation. -/
def donatePage (st : AppState) (sid : Nat) (amount : ℚ) (t : String) : AppState :=
  match getStudent st sid with
  | none => st
  | some s =>
    if s.need ≤ s.received then st
    else
      let st1 := add_ledger st (donation_entry s amount t) t
      let st2 := updateStudent st1 { s with received := s.received + amount }
      tryAutoRelease st2 sid t

/-- `db_update_proof(file_hash, {"status": "Verified", "file_path": fp})`
(`app.py` lines 223-235 at the call site on line 727): the SQL `UPDATE ...
WHERE hash=?` touches every row whose hash matches, with no check of the
current status. -/
def db_update_proof (ps : List Proof) (h fp : String) : List Proof :=
  ps.map (fun p => if p.hash == h then { p with status := "Verified", file_path := fp } else p)

/-- The session-side mirror of the verification (`app.py` lines 728-732): the
Python loop `break`s after the first proof whose hash matches. -/
def setFirstVerified (ps : List Proof) (h fp : String) : List Proof :=
  match ps with
  | [] => []
  | p :: rest =>
    if p.hash == h then { p with status := "Verified", file_path := fp } :: rest
    else p :: setFirstVerified rest h fp

/-- The `proof_upload` ledger dictionary (`app.py` lines 702-709). -/
def proof_upload_entry (s : Student) (fname h t : String) : Entry :=
  { type := some "proof_upload"
    student_id := some s.id
    student_name := some s.name
    filename := some fname
    file_hash := some h
    time := some t }

/-- The `proof_verified` ledger dictionary (`app.py` lines 735-742). -/
def proof_verified_entry (s : Student) (fname h t : String) : Entry :=
  { type := some "proof_verified"
    student_id := some s.id
    student_name := some s.name
    filename := some fname
    file_hash := some h
    time := some t }

/-- The `Reviewing` proof record built on submit (`app.py` lines 689-697). -/
def submitProofRecord (s : Student) (fname h fp t : String) : Proof :=
  { student_id := s.id, student_name := s.name, filename := fname
    hash := h, time := t, status := "Reviewing", file_path := fp }

/-- The submit-button body of the Upload Proof page (`app.py` lines 685-754):
persist the `Reviewing` proof to DB and session, append `proof_upload`, mark
`Verified` (all DB rows with the hash; first session hit only), append
`proof_verified`, set the student's `doc_hash`, and attempt the release.
`h` is the SHA-256 digest `compute_hash(content)` of the uploaded bytes
(modelled as an opaque string: equal content gives equal digests), `fp` the
saved file path, `t` the `now_ts()` timestamps of the flow. -/
def submitProofFlow (st : AppState) (s : Student) (fname h fp t : String) : AppState :=
  let pr : Proof := submitProofRecord s fname h fp t
  let st1 : AppState := { st with proofs_db := st.proofs_db ++ [pr], proofs := st.proofs ++ [pr] }
  let st2 := add_ledger st1 (proof_upload_entry s fname h t) t
  let st3 : AppState :=
    { st2 with proofs_db := db_update_proof st2.proofs_db h fp
               proofs := setFirstVerified st2.proofs h fp }
  let st4 := add_ledger st3 (proof_verified_entry s fname h t) t
  let st5 := updateStudent st4 { s with doc_hash := some h }
  tryAutoRelease st5 s.id t

/-- The Upload Proof page for one student (`app.py` lines 596-756): the page
first refreshes the session proof cache from the DB; the uploader is shown
only when the student is fully funded and has no existing proof, otherwise
the page only displays an info message and nothing is submitted. -/
def uploadPage (st : AppState) (sid : Nat) (fname h fp t : String) : AppState :=
  let st0 : AppState := { st with proofs := st.proofs_db }
  match getStudent st0 sid with
  | none => st0
  | some s =>
    if ¬ s.need ≤ s.received then st0
    else if st0.proofs.any (fun p => p.student_id == sid) then st0
    else submitProofFlow st0 s fname h fp t

/-- `AUTOINCREMENT` id for a fresh student row. -/
def nextStudentId (ss : List Student) : Nat :=
  ss.foldr (fun s m => max s.id m) 0 + 1

/-- `db_add_student` via the Add Student page (`app.py` lines 154-162 and
809-818): fresh id, `received = 0`, no doc hash, both flags clear. -/
def addStudentPage (st : AppState) (name : String) (need : ℚ) (story : String) : AppState :=
  { st with students := st.students ++
      [{ id := nextStudentId st.students, name := name, need := need, received := 0
         story := story, doc_hash := none, released := false, admin_charged := false }] }

/-- The seeded initial state (`app.py` lines 246-251): three sample students,
empty ledger, no proofs. -/
def initState : AppState :=
  { students :=
      [ { id := 1, name := "Alice Chan", need := 2000, received := 0
          story := "Alice dreams to continue secondary school.", doc_hash := none
          released := false, admin_charged := false }
      , { id := 2, name := "Ben Wong", need := 1500, received := 0
          story := "Ben needs tuition for next semester.", doc_hash := none
          released := false, admin_charged := false }
      , { id := 3, name := "Cindy Lee", need := 1000, received := 0
          story := "Cindy needs school supplies & uniform.", doc_hash := none
          released := false, admin_charged := false } ]
    ledger := []
    proofs := []
    proofs_db := [] }

/-- One user interaction.  The donation amount comes from the slider / number
input whose minimum is 1; the amount and need bounds are those UI constraints.
`reloadProofs` is a visit of the Upload Proof page without submitting;
`reloadLedger` is a visit of the Ledger page (session ledger re-read from the
DB, i.e. through the `db_add_ledger` projection). -/
inductive Step : AppState → AppState → Prop where
  | addStudent (st : AppState) (name story : String) (need : ℚ) (h : 1 ≤ need) :
      Step st (addStudentPage st name need story)
  | donate (st : AppState) (sid : Nat) (amount : ℚ) (t : String) (h : 1 ≤ amount) :
      Step st (donatePage st sid amount t)
  | upload (st : AppState) (sid : Nat) (fname hsh fp t : String) :
      Step st (uploadPage st sid fname hsh fp t)
  | reloadProofs (st : AppState) : Step st { st with proofs := st.proofs_db }
  | reloadLedger (st : AppState) : Step st { st with ledger := st.ledger.map db_add_ledger }

/-- States reachable from the seeded initial state by user interactions. -/
inductive Reachable : AppState → Prop where
  | init : Reachable initState
  | step {st st' : AppState} : Reachable st → Step st st' → Reachable st'

/-- Number of `admin_fee` ledger entries recorded for a given student. -/
def countAdminFee (L : List Entry) (sid : Nat) : Nat :=
  L.countP (fun e => e.type == some "admin_fee" && e.student_id == some sid)

/-- Column list of the ledger CSV export (`app.py` lines 761-768): the export
dumps `SELECT * FROM ledger`, i.e. exactly the schema columns of `init_db`
(lines 52-66), `id` included. -/
def ledgerColumns : List String :=
  ["id", "time", "type", "student_id", "student_name", "gross", "student_net",
   "admin_fee", "student_amount", "filename", "file_hash"]

/-- Render one optional CSV cell (empty where the field is absent). -/
def csvCell {α : Type} (f : α → String) : Option α → String
  | none => ""
  | some a => f a

/-- One CSV data row for the stored ledger row with rowid `i`. -/
def csvRow (i : Nat) (e : Entry) : List String :=
  [ toString i
  , csvCell id e.time
  , csvCell id e.type
  , csvCell toString e.student_id
  , csvCell toString e.student_name
  , csvCell toString e.gross
  , csvCell toString e.student_net
  , csvCell toString e.admin_fee
  , csvCell toString e.student_amount
  , csvCell id e.filename
  , csvCell id e.file_hash ]

/-- The ledger CSV export: header row, then one row per stored ledger entry
(the stored rows are the session entries through the `db_add_ledger`
projection). -/
def exportLedgerCsv (st : AppState) : List (List String) :=
  ledgerColumns ::
    (List.enumFrom 1 (st.ledger.map db_add_ledger)).map (fun pe => csvRow pe.1 pe.2)

/-! ### Basic lemmas about the operations -/

theorem getStudent_id {st : AppState} {sid : Nat} {s : Student}
    (h : getStudent st sid = some s) : s.id = sid := by
  have := List.find?_some h
  simpa using this

theorem find?_id_map_update {l : List Student} {sid : Nat} {s : Student} (s' : Student)
    (h : l.find? (fun x => x.id == sid) = some s) (hid : s'.id = s.id) :
    (l.map (fun x => if x.id == s'.id then s' else x)).find? (fun x => x.id == sid) = some s' := by
  induction l with
  | nil => simp at h
  | cons a l ih =>
    rw [List.find?_cons] at h
    rw [List.map_cons, List.find?_cons]
    by_cases ha : (a.id == sid) = true
    · rw [ha] at h
      simp only at h
      have has : a = s := by injection h
      have hs'id : s'.id = sid := by
        rw [hid, ← has]
        simpa using ha
      have hid' : (a.id == s'.id) = true := by
        simp only [beq_iff_eq]
        rw [hs'id]
        simpa using ha
      rw [if_pos hid', show (s'.id == sid) = true by simp [hs'id]]
    · have ha' : (a.id == sid) = false := by simpa using ha
      rw [ha'] at h
      simp only at h
      have hsid : s.id = sid := by simpa using List.find?_some h
      have hcond : ¬ (a.id == s'.id) = true := by
        simp only [beq_iff_eq]
        intro hc
        exact ha (by simp [hc, hid, hsid])
      rw [if_neg hcond, ha']
      exact ih h

theorem getStudent_updateStudent {st : AppState} {sid : Nat} {s : Student} (s' : Student)
    (h : getStudent st sid = some s) (hid : s'.id = s.id) :
    getStudent (updateStudent st s') sid = some s' :=
  find?_id_map_update s' h hid

theorem withTime_of_time (e : Entry) (t : String) (h : e.time = some t) :
    withTime e t = e := by
  have hupd : ({ e with time := some t } : Entry) = e := by
    cases e
    simp_all
  simp only [withTime, h]
  split
  · exact hupd
  · rfl

/-- `try_auto_release` leaves the state unchanged when the eligibility
conjunction fails. -/
theorem tryAutoRelease_not_fire {st : AppState} {sid : Nat} {s : Student} (t : String)
    (hs : getStudent st sid = some s)
    (h : ¬(s.need ≤ s.received ∧ proofVerifiedFor st.proofs sid = true ∧ s.released = false)) :
    tryAutoRelease st sid t = st := by
  simp only [tryAutoRelease, hs]
  rw [if_neg h]

/-- `try_auto_release` on a missing student id is a no-op. -/
theorem tryAutoRelease_none {st : AppState} {sid : Nat} (t : String)
    (hs : getStudent st sid = none) : tryAutoRelease st sid t = st := by
  simp only [tryAutoRelease, hs]

/-- The effect of a firing `try_auto_release` on a student whose admin fee has
not yet been charged: the `admin_fee` and `release` entries are appended in
this order and the student's flags are both set. -/
theorem tryAutoRelease_fire {st : AppState} {sid : Nat} {s : Student} (t : String)
    (hs : getStudent st sid = some s)
    (hf : s.need ≤ s.received) (hv : proofVerifiedFor st.proofs sid = true)
    (hr : s.released = false) (ha : s.admin_charged = false) :
    tryAutoRelease st sid t =
      { st with
          ledger := (st.ledger ++ [admin_fee_entry s t]) ++ [release_entry s t]
          students := st.students.map
            (fun x => if x.id == (released_student s).id then released_student s else x) } := by
  have hw1 : withTime (admin_fee_entry s t) t = admin_fee_entry s t := withTime_of_time _ _ rfl
  have hw2 : withTime (release_entry s t) t = release_entry s t := withTime_of_time _ _ rfl
  simp only [tryAutoRelease, hs, if_pos (And.intro hf (And.intro hv hr)), ha,
    add_ledger, hw1, hw2, updateStudent, released_student]
  simp

/-- The effect of a firing `try_auto_release` on a student whose admin fee was
already charged: only the `release` entry is appended. -/
theorem tryAutoRelease_fire_charged {st : AppState} {sid : Nat} {s : Student} (t : String)
    (hs : getStudent st sid = some s)
    (hf : s.need ≤ s.received) (hv : proofVerifiedFor st.proofs sid = true)
    (hr : s.released = false) (ha : s.admin_charged = true) :
    tryAutoRelease st sid t =
      { st with
          ledger := st.ledger ++ [release_entry s t]
          students := st.students.map
            (fun x => if x.id == (released_student s).id then released_student s else x) } := by
  have hw2 : withTime (release_entry s t) t = release_entry s t := withTime_of_time _ _ rfl
  simp only [tryAutoRelease, hs, if_pos (And.intro hf (And.intro hv hr)), ha,
    add_ledger, hw2, updateStudent, released_student]
  simp [ha]

/-- The state produced by a firing `try_auto_release` looks the released
student up as the updated snapshot. -/
theorem getStudent_after_fire {st : AppState} {sid : Nat} {s : Student}
    (hs : getStudent st sid = some s) (L : List Entry) :
    getStudent
      { st with
          ledger := L
          students := st.students.map
            (fun x => if x.id == (released_student s).id then released_student s else x) }
      sid = some (released_student s) :=
  find?_id_map_update (released_student s) hs rfl

/-- `try_auto_release` is idempotent on every state: a second invocation for
the same student never changes the result of the first. -/
theorem tryAutoRelease_idem (st : AppState) (sid : Nat) (t t2 : String) :
    tryAutoRelease (tryAutoRelease st sid t) sid t2 = tryAutoRelease st sid t := by
  cases hs : getStudent st sid with
  | none => rw [tryAutoRelease_none t hs, tryAutoRelease_none t2 hs]
  | some s =>
    by_cases hc : s.need ≤ s.received ∧ proofVerifiedFor st.proofs sid = true ∧ s.released = false
    · by_cases ha : s.admin_charged = false
      · rw [tryAutoRelease_fire t hs hc.1 hc.2.1 hc.2.2 ha]
        exact tryAutoRelease_not_fire t2 (getStudent_after_fire hs _)
          (by simp [released_student])
      · have ha' : s.admin_charged = true := by simpa using ha
        rw [tryAutoRelease_fire_charged t hs hc.1 hc.2.1 hc.2.2 ha']
        exact tryAutoRelease_not_fire t2 (getStudent_after_fire hs _)
          (by simp [released_student])
    · rw [tryAutoRelease_not_fire t hs hc]
      exact tryAutoRelease_not_fire t2 hs hc

/-! ### Concrete runs of the system, used as witnesses -/

/-- Scenario A, step 1: Cindy (`need = 1000`) receives a 1000 donation. -/
def exSt1 : AppState := donatePage initState 3 1000 "t1"

/-- Scenario A, step 2: Cindy's proof is uploaded and verified (hash `"h"`);
the release fires within the flow. -/
def exSt2 : AppState := uploadPage exSt1 3 "proof.pdf" "h" "uploads/p" "t2"

/-- Ben (`need = 1500`) becomes fully funded. -/
def exSt3 : AppState := donatePage exSt2 2 1500 "t3"

/-- Ben uploads a file with the same content as Cindy's (equal hash `"h"`):
the DB marks his proof `Verified` but the session cache does not (the loop
stops at Cindy's proof), so no release fires. -/
def exSt4 : AppState := uploadPage exSt3 2 "proof2.pdf" "h" "uploads/q" "t4"

/-- A later visit of the Upload Proof page refreshes the session proof cache
from the DB; Ben is now fully funded with a `Verified` proof and not
released. -/
def exSt5 : AppState := { exSt4 with proofs := exSt4.proofs_db }

/-- Cindy's snapshot inside `exSt2`. -/
def cindyReleased : Student :=
  { id := 3, name := "Cindy Lee", need := 1000, received := 1000
    story := "Cindy needs school supplies & uniform.", doc_hash := some "h"
    released := true, admin_charged := true }

/-- Ben's snapshot inside `exSt5`. -/
def benEligible : Student :=
  { id := 2, name := "Ben Wong", need := 1500, received := 1500
    story := "Ben needs tuition for next semester.", doc_hash := some "h"
    released := false, admin_charged := false }

/-- Alice's seeded snapshot. -/
def alice0 : Student :=
  { id := 1, name := "Alice Chan", need := 2000, received := 0
    story := "Alice dreams to continue secondary school.", doc_hash := none
    released := false, admin_charged := false }

/-- A proof record sitting at status `Submitted`. -/
def submittedProof : Proof :=
  { student_id := 1, student_name := "Alice Chan", filename := "a.pdf", hash := "h1"
    time := "t0", status := "Submitted", file_path := "uploads/a" }

/-! ### Claims C7, C3, C10, C9, C5, C4, C8 -/

/-- Claim C7: release evaluation is idempotent — on a beneficiary whose
`released` flag is already true it is a no-op (no new ledger entries, no
beneficiary change), and two successive invocations have the same effect as
one. -/
theorem claim_C7_release_idempotent (st : AppState) (sid : Nat) (s : Student) (t t2 : String)
    (hs : getStudent st sid = some s) :
    (s.released = true → tryAutoRelease st sid t = st) ∧
    tryAutoRelease (tryAutoRelease st sid t) sid t2 = tryAutoRelease st sid t := by
  constructor
  · intro hrel
    exact tryAutoRelease_not_fire t hs (by simp [hrel])
  · exact tryAutoRelease_idem st sid t t2

set_option maxRecDepth 20000 in
/-- Witness for C7 at the concrete released student Cindy in `exSt2`. -/
theorem claim_C7_witness :
    (cindyReleased.released = true → tryAutoRelease exSt2 3 "w1" = exSt2) ∧
    tryAutoRelease (tryAutoRelease exSt2 3 "w1") 3 "w2" = tryAutoRelease exSt2 3 "w1" :=
  claim_C7_release_idempotent exSt2 3 cindyReleased "w1" "w2" (by with_unfolding_all decide)

/-- Claim C3 is false on the code: `db_update_proof` applied to the hash of a
proof whose status is `Submitted` (not `Reviewing`) transitions it to
`Verified` instead of failing with `InvalidState` and leaving it unchanged. -/
theorem claim_C3_counterexample :
    submittedProof.status ≠ "Reviewing" ∧
    db_update_proof [submittedProof] "h1" "uploads/a" ≠ [submittedProof] ∧
    (db_update_proof [submittedProof] "h1" "uploads/a").map Proof.status = ["Verified"] := by
  decide

/-- Claim C3 (amended): `db_update_proof` sets the status of every proof whose
hash matches the argument to `Verified` unconditionally — whatever its current
status — and leaves proofs with a different hash unchanged; the code has no
status check and no `InvalidState` failure path. -/
theorem claim_C3_amended (ps : List Proof) (h fp : String) :
    (∀ p ∈ ps, p.hash = h →
      ({ p with status := "Verified", file_path := fp } : Proof) ∈ db_update_proof ps h fp) ∧
    (∀ p ∈ ps, p.hash ≠ h → p ∈ db_update_proof ps h fp) := by
  constructor
  · intro p hp hh
    have := List.mem_map_of_mem
      (fun p : Proof => if p.hash == h then { p with status := "Verified", file_path := fp } else p) hp
    simpa [db_update_proof, hh] using this
  · intro p hp hh
    have := List.mem_map_of_mem
      (fun p : Proof => if p.hash == h then { p with status := "Verified", file_path := fp } else p) hp
    simpa [db_update_proof, hh] using this

/-- Claim C10: proof verification is keyed by content hash alone — every
stored proof whose hash equals the argument is updated in place (so two
beneficiaries with identical content are both set to `Verified` by one call),
and proofs with a different hash keep their record. -/
theorem claim_C10_hash_keyed (ps : List Proof) (h fp : String) :
    (∀ i : Nat, (db_update_proof ps h fp)[i]? =
      (ps[i]?).map (fun p =>
        if p.hash == h then { p with status := "Verified", file_path := fp } else p)) ∧
    (∀ p q : Proof, p.hash = q.hash →
      (db_update_proof [p, q] p.hash fp).map Proof.status = ["Verified", "Verified"]) := by
  constructor
  · intro i
    simp [db_update_proof, List.getElem?_map]
  · intro p q hpq
    simp [db_update_proof, ← hpq]

/-- Witness for C10: two proofs of different students with equal hashes are
both verified by the one call; recorded at index 0 and 1 of a concrete
list. -/
theorem claim_C10_witness :
    ((db_update_proof [submittedProof, { submittedProof with student_id := 2 }] "h1" "fp")[0]? =
      (([submittedProof, { submittedProof with student_id := 2 }] : List Proof)[0]?).map
        (fun p => if p.hash == "h1" then { p with status := "Verified", file_path := "fp" } else p)) ∧
    (db_update_proof [submittedProof, { submittedProof with student_id := 2 }]
        submittedProof.hash "fp").map Proof.status = ["Verified", "Verified"] :=
  And.intro
    ((claim_C10_hash_keyed [submittedProof, { submittedProof with student_id := 2 }] "h1" "fp").1 0)
    ((claim_C10_hash_keyed [submittedProof, { submittedProof with student_id := 2 }]
        submittedProof.hash "fp").2 submittedProof { submittedProof with student_id := 2 } rfl)

/-- The stored image of any session ledger list carries no release amounts. -/
theorem map_amount_released_none (L : List Entry) :
    (L.map db_add_ledger).map Entry.amount_released = List.replicate L.length none := by
  induction L with
  | nil => rfl
  | cons a L ih => simp [db_add_ledger, ih, List.replicate_succ]

/-- Claim C9: `db_add_ledger` persists exactly the ten schema fields and
silently drops every other key; in particular the `amount_released` of a
`release` entry is present on the appended session entry but absent from the
stored row, so a ledger reloaded from the store has release entries with no
release amount. -/
theorem claim_C9_store_drops_fields :
    (∀ e : Entry, db_add_ledger e =
      { time := e.time, type := e.type, student_id := e.student_id
        student_name := e.student_name, gross := e.gross, student_net := e.student_net
        admin_fee := e.admin_fee, student_amount := e.student_amount
        filename := e.filename, file_hash := e.file_hash
        amount_released := none, released := none }) ∧
    (∀ (s : Student) (t : String),
      (release_entry s t).amount_released = some s.need ∧
      (db_add_ledger (release_entry s t)).amount_released = none) ∧
    (∀ st : AppState, (st.ledger.map db_add_ledger).map Entry.amount_released =
      List.replicate st.ledger.length none) :=
  And.intro (fun _ => rfl)
    (And.intro (fun _ _ => And.intro rfl rfl) (fun st => map_amount_released_none st.ledger))

/-- Claim C5 is false on the code: the exported column set is the `SELECT *`
schema — it has no `amount_released` column at all (and does have `id` and
`student_net`), so it is not the claimed ten-column list and release rows
cannot carry a release amount. -/
theorem claim_C5_counterexample :
    "amount_released" ∉ ledgerColumns ∧ "student_net" ∈ ledgerColumns ∧
    "id" ∈ ledgerColumns ∧
    ledgerColumns ≠ ["time", "type", "student_id", "student_name", "gross",
      "admin_fee", "student_amount", "filename", "file_hash", "amount_released"] := by
  decide

/-- Claim C5 (amended): the CSV consists of the header `id, time, type,
student_id, student_name, gross, student_net, admin_fee, student_amount,
filename, file_hash` followed by one row per stored entry, a cell being empty
where the field does not apply to the entry's kind; a stored `release` row in
particular has only its identification cells filled and carries no released
amount. -/
theorem claim_C5_amended :
    (∀ st : AppState, (exportLedgerCsv st).head? = some ledgerColumns) ∧
    ledgerColumns = ["id", "time", "type", "student_id", "student_name", "gross",
      "student_net", "admin_fee", "student_amount", "filename", "file_hash"] ∧
    (∀ (s : Student) (t : String) (i : Nat),
      csvRow i (db_add_ledger (release_entry s t)) =
        [toString i, t, "release", toString s.id, s.name, "", "", "", "", "", ""]) ∧
    (∀ (e : Entry) (i : Nat), (csvRow i e).length = ledgerColumns.length) :=
  And.intro (fun _ => rfl)
    (And.intro rfl (And.intro (fun _ _ _ => rfl) (fun _ _ => rfl)))

set_option maxRecDepth 20000 in
/-- Claim C4 is false on the code: the donate handler performs no amount
validation — `donate(1, -5)` on the seeded state raises nothing, appends a
donation ledger entry and drops Alice's `received` to `-5` instead of leaving
beneficiary and ledger unchanged. -/
theorem claim_C4_counterexample :
    (-5 : ℚ) ≤ 0 ∧
    donatePage initState 1 (-5) "t" ≠ initState ∧
    (getStudent (donatePage initState 1 (-5) "t") 1).map Student.received = some (-5) ∧
    (donatePage initState 1 (-5) "t").ledger.length = 1 := by
  with_unfolding_all decide

/-- Claim C4 (amended): the donate handler validates nothing about the
amount: for any `amount ≤ 0` (UI sliders are the only guard, with minimum 1)
it still appends the donation entry with `gross = amount` and adds `amount`
to `received`; no `ValidationError` exists. -/
theorem claim_C4_amended (st : AppState) (sid : Nat) (s : Student) (amount : ℚ) (t : String)
    (hs : getStudent st sid = some s) (hlt : s.received < s.need) (hamt : amount ≤ 0) :
    donatePage st sid amount t =
      { st with
          ledger := st.ledger ++ [donation_entry s amount t]
          students := st.students.map
            (fun x => if x.id == s.id then { s with received := s.received + amount } else x) } := by
  have hw : withTime (donation_entry s amount t) t = donation_entry s amount t :=
    withTime_of_time _ _ rfl
  have hnf : ¬ s.need ≤ s.received := not_le.mpr hlt
  simp only [donatePage, hs, if_neg hnf, add_ledger, hw, updateStudent]
  apply tryAutoRelease_not_fire t
  · exact getStudent_updateStudent ({ s with received := s.received + amount }) hs rfl
  · intro hcon
    have : s.need ≤ s.received + amount := hcon.1
    have : s.need ≤ s.received := le_trans this (by linarith)
    exact hnf this

set_option maxRecDepth 20000 in
/-- Witness for C4 (amended) at `donate(1, -5)` on the seeded state. -/
theorem claim_C4_amended_witness :
    donatePage initState 1 (-5) "w" =
      { initState with
          ledger := initState.ledger ++ [donation_entry alice0 (-5) "w"]
          students := initState.students.map
            (fun x => if x.id == alice0.id then { alice0 with received := alice0.received + -5 } else x) } :=
  claim_C4_amended initState 1 alice0 (-5) "w" (by with_unfolding_all decide)
    (by with_unfolding_all decide) (by with_unfolding_all decide)

set_option maxRecDepth 20000 in
/-- Claim C8 is false in its failure mode: a second submit attempt for Cindy
(who already has a proof) does not fail with `PreconditionFailed` — the page
silently refuses (the uploader is not even rendered) and the only state
change is the session proof cache refreshing from the DB; no ledger entry and
no proof record is added. -/
theorem claim_C8_counterexample :
    uploadPage exSt2 3 "again.pdf" "h2" "uploads/r" "t9" = { exSt2 with proofs := exSt2.proofs_db } ∧
    (uploadPage exSt2 3 "again.pdf" "h2" "uploads/r" "t9").ledger = exSt2.ledger ∧
    (uploadPage exSt2 3 "again.pdf" "h2" "uploads/r" "t9").proofs_db = exSt2.proofs_db := by
  with_unfolding_all decide

/-- Claim C8 (amended): when a proof already exists for the beneficiary, or
when the beneficiary is not fully funded, the Upload Proof page blocks the
submission silently: the outcome is exactly the page-top session cache
refresh — no new ledger entry, no new proof record, no student change, and no
`PreconditionFailed` error (none exists in the code). -/
theorem claim_C8_amended (st : AppState) (sid : Nat) (s : Student) (fname h fp t : String)
    (hs : getStudent st sid = some s) :
    ((st.proofs_db.any (fun p => p.student_id == sid)) = true →
      uploadPage st sid fname h fp t = { st with proofs := st.proofs_db }) ∧
    (s.received < s.need →
      uploadPage st sid fname h fp t = { st with proofs := st.proofs_db }) := by
  have hs0 : getStudent { st with proofs := st.proofs_db } sid = some s := hs
  constructor
  · intro hex
    simp only [uploadPage, hs0]
    by_cases hf : s.need ≤ s.received
    · rw [if_neg (by simpa using hf), if_pos (by simpa using hex)]
    · rw [if_pos (by simpa using hf)]
  · intro hlt
    simp only [uploadPage, hs0]
    rw [if_pos (by simpa using not_le.mpr hlt)]

set_option maxRecDepth 20000 in
/-- Witness for C8 (amended): Cindy in `exSt2` already has a proof. -/
theorem claim_C8_amended_witness :
    ((exSt2.proofs_db.any (fun p => p.student_id == 3)) = true →
      uploadPage exSt2 3 "x.pdf" "h3" "uploads/x" "t8" = { exSt2 with proofs := exSt2.proofs_db }) ∧
    (cindyReleased.received < cindyReleased.need →
      uploadPage exSt2 3 "x.pdf" "h3" "uploads/x" "t8" = { exSt2 with proofs := exSt2.proofs_db }) :=
  claim_C8_amended exSt2 3 cindyReleased "x.pdf" "h3" "uploads/x" "t8" (by with_unfolding_all decide)

/-! ### The reachable-state invariant -/

/-- Release ordering in a ledger: every `release` entry is preceded (at a
strictly smaller sequence position) by a `proof_verified` entry of the same
student. -/
def relOrdered (L : List Entry) : Prop :=
  ∀ (i : Nat) (e : Entry), L[i]? = some e → e.type = some "release" →
    ∃ (j : Nat) (e' : Entry), j < i ∧ L[j]? = some e' ∧ e'.type = some "proof_verified" ∧
      e'.student_id = e.student_id

/-- The inductive invariant of the application state. -/
structure Inv (st : AppState) : Prop where
  nodup : (st.students.map Student.id).Nodup
  flags : ∀ s ∈ st.students, s.released = s.admin_charged
  feeCount : ∀ s ∈ st.students,
    countAdminFee st.ledger s.id = (if s.admin_charged = true then 1 else 0)
  ledgerRef : ∀ e ∈ st.ledger, ∀ k : Nat, e.student_id = some k →
    ∃ x ∈ st.students, x.id = k
  proofsFunded : ∀ p ∈ st.proofs, ∃ x ∈ st.students,
    x.id = p.student_id ∧ x.need ≤ x.received
  proofsDbFunded : ∀ p ∈ st.proofs_db, ∃ x ∈ st.students,
    x.id = p.student_id ∧ x.need ≤ x.received
  relOrder : relOrdered st.ledger
  relVerified : ∀ s ∈ st.students, s.released = true →
    ∃ p ∈ st.proofs_db, p.student_id = s.id ∧ p.status = "Verified"
  relEntry : ∀ s ∈ st.students, s.released = true →
    ∃ (i : Nat) (e : Entry), st.ledger[i]? = some e ∧ e.type = some "release" ∧
      e.student_id = some s.id

/-! ### List helper lemmas -/

theorem getElem?_append_of_some {α : Type} {L M : List α} {i : Nat} {x : α}
    (h : L[i]? = some x) : (L ++ M)[i]? = some x := by
  have hi : i < L.length := by
    by_contra hge
    rw [List.getElem?_eq_none (by omega)] at h
    exact Option.noConfusion h
  rw [List.getElem?_append, if_pos hi]
  exact h

theorem getElem?_concat_length {α : Type} (L : List α) (x : α) :
    (L ++ [x])[L.length]? = some x := by
  rw [List.getElem?_append, if_neg (by omega)]
  simp

theorem getElem?_concat_cases {α : Type} {L : List α} {x y : α} {i : Nat}
    (h : (L ++ [x])[i]? = some y) : L[i]? = some y ∨ (i = L.length ∧ y = x) := by
  rw [List.getElem?_append] at h
  by_cases hi : i < L.length
  · rw [if_pos hi] at h
    exact Or.inl h
  · rw [if_neg hi] at h
    right
    rcases Nat.lt_or_ge (i - L.length) 1 with hlt | hge
    · have hi0 : i - L.length = 0 := by omega
      rw [hi0] at h
      simp at h
      exact ⟨by omega, h.symm⟩
    · rw [List.getElem?_eq_none (by simp; omega)] at h
      exact Option.noConfusion h

theorem relOrdered_append_one {L : List Entry} {e : Entry} (hL : relOrdered L)
    (he : e.type = some "release" →
      ∃ (j : Nat) (e' : Entry), L[j]? = some e' ∧ e'.type = some "proof_verified" ∧
        e'.student_id = e.student_id) :
    relOrdered (L ++ [e]) := by
  intro i x hix htype
  rcases getElem?_concat_cases hix with hL' | ⟨hi, rfl⟩
  · obtain ⟨j, e', hj, hje', ht', hs'⟩ := hL i x hL' htype
    exact ⟨j, e', hj, getElem?_append_of_some hje', ht', hs'⟩
  · obtain ⟨j, e', hje', ht', hs'⟩ := he htype
    have hjlt : j < L.length := by
      by_contra hge
      rw [List.getElem?_eq_none (by omega)] at hje'
      exact Option.noConfusion hje'
    exact ⟨j, e', by omega, getElem?_append_of_some hje', ht', hs'⟩

theorem relOrdered_append_other {L : List Entry} {e : Entry} (hL : relOrdered L)
    (he : e.type ≠ some "release") : relOrdered (L ++ [e]) :=
  relOrdered_append_one hL (fun h => absurd h he)

theorem countAdminFee_append (L : List Entry) (e : Entry) (sid : Nat) :
    countAdminFee (L ++ [e]) sid =
      countAdminFee L sid +
        (if (e.type == some "admin_fee" && e.student_id == some sid) = true then 1 else 0) := by
  simp [countAdminFee, List.countP_append, List.countP_cons]

theorem countAdminFee_map_store (L : List Entry) (sid : Nat) :
    countAdminFee (L.map db_add_ledger) sid = countAdminFee L sid := by
  induction L with
  | nil => rfl
  | cons a L ih =>
    simp only [List.map_cons, countAdminFee, List.countP_cons, db_add_ledger] at *
    rw [ih]

theorem relOrdered_map_store {L : List Entry} (hL : relOrdered L) :
    relOrdered (L.map db_add_ledger) := by
  intro i e hie htype
  rw [List.getElem?_map] at hie
  cases he0 : L[i]? with
  | none => rw [he0] at hie; exact Option.noConfusion hie
  | some e0 =>
    rw [he0] at hie
    have hie' : db_add_ledger e0 = e := by simpa using hie
    have het : e0.type = some "release" := by
      rw [← hie'] at htype
      exact htype
    obtain ⟨j, e', hj, hje', ht', hs'⟩ := hL i e0 he0 het
    refine ⟨j, db_add_ledger e', hj, ?_, ht', ?_⟩
    · rw [List.getElem?_map, hje']
      rfl
    · show e'.student_id = e.student_id
      rw [← hie']
      exact hs'

/-! ### Student list lemmas -/

theorem mem_of_getStudent {st : AppState} {sid : Nat} {s : Student}
    (h : getStudent st sid = some s) : s ∈ st.students :=
  List.mem_of_find?_eq_some h

theorem unique_by_id {st : AppState} (hnd : (st.students.map Student.id).Nodup)
    {sid : Nat} {s x : Student} (hs : getStudent st sid = some s)
    (hx : x ∈ st.students) (hxid : x.id = sid) : x = s :=
  List.inj_on_of_nodup_map hnd hx (mem_of_getStudent hs) (by rw [hxid, getStudent_id hs])

theorem mem_updateStudent_cases {st : AppState} {s' x : Student}
    (hx : x ∈ (updateStudent st s').students) :
    x = s' ∨ (x ∈ st.students ∧ x.id ≠ s'.id) := by
  simp only [updateStudent, List.mem_map] at hx
  obtain ⟨y, hy, hxy⟩ := hx
  by_cases hc : (y.id == s'.id) = true
  · rw [if_pos hc] at hxy
    exact Or.inl hxy.symm
  · rw [if_neg hc] at hxy
    subst hxy
    exact Or.inr ⟨hy, by simpa using hc⟩

theorem mem_updateStudent_self {st : AppState} {sid : Nat} {s : Student} (s' : Student)
    (hs : getStudent st sid = some s) (hid : s'.id = s.id) :
    s' ∈ (updateStudent st s').students := by
  simp only [updateStudent, List.mem_map]
  exact ⟨s, mem_of_getStudent hs, by rw [if_pos (by simp [hid])]⟩

theorem ids_updateStudent (st : AppState) (s' : Student) :
    (updateStudent st s').students.map Student.id = st.students.map Student.id := by
  simp only [updateStudent, List.map_map]
  apply List.map_congr_left
  intro y hy
  simp only [Function.comp_apply]
  split
  · next hc =>
      have hcc : y.id = s'.id := by simpa using hc
      exact hcc.symm
  · rfl

theorem exists_id_updateStudent {st : AppState} {k : Nat} (s' : Student)
    (h : ∃ x ∈ st.students, x.id = k) :
    ∃ x ∈ (updateStudent st s').students, x.id = k := by
  obtain ⟨y, hy, hyk⟩ := h
  by_cases hc : (y.id == s'.id) = true
  · refine ⟨s', ?_, ?_⟩
    · simp only [updateStudent, List.mem_map]
      exact ⟨y, hy, by rw [if_pos hc]⟩
    · have : y.id = s'.id := by simpa using hc
      rw [← this, hyk]
  · refine ⟨y, ?_, hyk⟩
    simp only [updateStudent, List.mem_map]
    exact ⟨y, hy, by rw [if_neg hc]⟩

theorem funded_exists_updateStudent {st : AppState} {sid k : Nat} {s : Student}
    (hnd : (st.students.map Student.id).Nodup)
    (hs : getStudent st sid = some s) (s' : Student) (hid : s'.id = s.id)
    (hneed : s'.need = s.need) (hrecv : s.received ≤ s'.received)
    (h : ∃ x ∈ st.students, x.id = k ∧ x.need ≤ x.received) :
    ∃ x ∈ (updateStudent st s').students, x.id = k ∧ x.need ≤ x.received := by
  obtain ⟨y, hy, hyk, hyf⟩ := h
  by_cases hc : (y.id == s'.id) = true
  · have hysid : y.id = s'.id := by simpa using hc
    have hy_eq_s : y = s := unique_by_id hnd hs hy (by rw [hysid, hid, getStudent_id hs])
    refine ⟨s', mem_updateStudent_self s' hs hid, ?_, ?_⟩
    · rw [hid, ← hyk, hy_eq_s]
    · calc s'.need = s.need := hneed
        _ = y.need := by rw [hy_eq_s]
        _ ≤ y.received := hyf
        _ = s.received := by rw [hy_eq_s]
        _ ≤ s'.received := hrecv
  · refine ⟨y, ?_, hyk, hyf⟩
    simp only [updateStudent, List.mem_map]
    exact ⟨y, hy, by rw [if_neg hc]⟩

/-! ### Proof list lemmas -/

theorem setFirstVerified_ids {ps : List Proof} {h fp : String} :
    ∀ q ∈ setFirstVerified ps h fp, ∃ p ∈ ps, q.student_id = p.student_id := by
  induction ps with
  | nil => simp [setFirstVerified]
  | cons a ps ih =>
    simp only [setFirstVerified]
    split
    · intro q hq
      rcases List.mem_cons.mp hq with rfl | hq'
      · exact ⟨a, List.mem_cons_self a ps, rfl⟩
      · exact ⟨q, List.mem_cons_of_mem a hq', rfl⟩
    · intro q hq
      rcases List.mem_cons.mp hq with rfl | hq'
      · exact ⟨q, List.mem_cons_self q ps, rfl⟩
      · obtain ⟨p, hp, hqp⟩ := ih q hq'
        exact ⟨p, List.mem_cons_of_mem a hp, hqp⟩

theorem db_update_proof_ids {ps : List Proof} {h fp : String} :
    ∀ q ∈ db_update_proof ps h fp, ∃ p ∈ ps, q.student_id = p.student_id := by
  intro q hq
  simp only [db_update_proof, List.mem_map] at hq
  obtain ⟨p, hp, hpq⟩ := hq
  refine ⟨p, hp, ?_⟩
  rw [← hpq]
  split <;> rfl

theorem db_update_proof_keeps_verified {ps : List Proof} (h fp : String) {p : Proof}
    (hp : p ∈ ps) (hv : p.status = "Verified") :
    ∃ q ∈ db_update_proof ps h fp, q.student_id = p.student_id ∧ q.status = "Verified" := by
  by_cases hc : (p.hash == h) = true
  · refine ⟨{ p with status := "Verified", file_path := fp }, ?_, rfl, rfl⟩
    simp only [db_update_proof, List.mem_map]
    exact ⟨p, hp, by rw [if_pos hc]⟩
  · refine ⟨p, ?_, rfl, hv⟩
    simp only [db_update_proof, List.mem_map]
    exact ⟨p, hp, by rw [if_neg hc]⟩

/-! ### The invariant holds initially -/

theorem inv_init : Inv initState := by
  refine ⟨?_, ?_, ?_, ?_, ?_, ?_, ?_, ?_, ?_⟩
  · decide
  · intro s hs
    simp only [initState, List.mem_cons, List.not_mem_nil, or_false] at hs
    rcases hs with rfl | rfl | rfl <;> rfl
  · intro s hs
    simp only [initState, List.mem_cons, List.not_mem_nil, or_false] at hs
    rcases hs with rfl | rfl | rfl <;> rfl
  · intro e he
    simp [initState] at he
  · intro p hp
    simp [initState] at hp
  · intro p hp
    simp [initState] at hp
  · intro i e hie
    simp [initState] at hie
  · intro s hs hrel
    simp only [initState, List.mem_cons, List.not_mem_nil, or_false] at hs
    rcases hs with rfl | rfl | rfl <;> simp at hrel
  · intro s hs hrel
    simp only [initState, List.mem_cons, List.not_mem_nil, or_false] at hs
    rcases hs with rfl | rfl | rfl <;> simp at hrel

/-! ### Invariant preservation: cache reloads and Add Student -/

theorem inv_reloadProofs {st : AppState} (hInv : Inv st) :
    Inv { st with proofs := st.proofs_db } :=
  ⟨hInv.nodup, hInv.flags, hInv.feeCount, hInv.ledgerRef, hInv.proofsDbFunded,
    hInv.proofsDbFunded, hInv.relOrder, hInv.relVerified, hInv.relEntry⟩

theorem inv_reloadLedger {st : AppState} (hInv : Inv st) :
    Inv { st with ledger := st.ledger.map db_add_ledger } := by
  refine ⟨hInv.nodup, hInv.flags, ?_, ?_, hInv.proofsFunded, hInv.proofsDbFunded, ?_, hInv.relVerified, ?_⟩
  · intro s hs
    show countAdminFee (st.ledger.map db_add_ledger) s.id = _
    rw [countAdminFee_map_store]
    exact hInv.feeCount s hs
  · intro e he k hk
    simp only [List.mem_map] at he
    obtain ⟨e0, he0, rfl⟩ := he
    exact hInv.ledgerRef e0 he0 k hk
  · exact relOrdered_map_store hInv.relOrder
  · intro s hs hrel
    obtain ⟨i, e, hie, ht, hid⟩ := hInv.relEntry s hs hrel
    refine ⟨i, db_add_ledger e, ?_, ht, hid⟩
    show (st.ledger.map db_add_ledger)[i]? = _
    rw [List.getElem?_map, hie]
    rfl

theorem le_foldr_max_id : ∀ (ss : List Student), ∀ s ∈ ss,
    s.id ≤ ss.foldr (fun s m => max s.id m) 0 := by
  intro ss
  induction ss with
  | nil => simp
  | cons a l ih =>
    intro s hs
    rcases List.mem_cons.mp hs with rfl | hs'
    · exact le_max_left _ _
    · exact le_trans (ih s hs') (le_max_right _ _)

theorem lt_nextStudentId {ss : List Student} {s : Student} (hs : s ∈ ss) :
    s.id < nextStudentId ss :=
  Nat.lt_succ_of_le (le_foldr_max_id ss s hs)

theorem inv_addStudent {st : AppState} (hInv : Inv st) (name story : String) (need : ℚ) :
    Inv (addStudentPage st name need story) := by
  set snew : Student :=
    { id := nextStudentId st.students, name := name, need := need, received := 0
      story := story, doc_hash := none, released := false, admin_charged := false } with hsnew
  have hmem : ∀ x ∈ (addStudentPage st name need story).students,
      x ∈ st.students ∨ x = snew := by
    intro x hx
    simp only [addStudentPage, List.mem_append, List.mem_cons, List.not_mem_nil, or_false] at hx
    exact hx
  have hold : ∀ x ∈ st.students, x ∈ (addStudentPage st name need story).students := by
    intro x hx
    simp only [addStudentPage, List.mem_append]
    exact Or.inl hx
  refine ⟨?_, ?_, ?_, ?_, ?_, ?_, hInv.relOrder, ?_, ?_⟩
  · show ((st.students ++ [snew]).map Student.id).Nodup
    rw [List.map_append]
    rw [List.nodup_append]
    refine ⟨hInv.nodup, List.nodup_singleton _, ?_⟩
    intro a ha hb
    simp only [List.map_singleton, List.mem_singleton] at hb
    simp only [List.mem_map] at ha
    obtain ⟨x, hx, rfl⟩ := ha
    exact absurd hb (Nat.ne_of_lt (lt_nextStudentId hx))
  · intro s hs
    rcases hmem s hs with hs' | rfl
    · exact hInv.flags s hs'
    · rfl
  · intro s hs
    rcases hmem s hs with hs' | rfl
    · exact hInv.feeCount s hs'
    · show countAdminFee st.ledger snew.id = 0
      rw [countAdminFee, List.countP_eq_zero]
      intro e he hpred
      rw [Bool.and_eq_true] at hpred
      have hid : e.student_id = some snew.id := by simpa using hpred.2
      obtain ⟨x, hx, hxid⟩ := hInv.ledgerRef e he snew.id hid
      exact absurd hxid (Nat.ne_of_lt (lt_nextStudentId hx))
  · intro e he k hk
    obtain ⟨x, hx, hxk⟩ := hInv.ledgerRef e he k hk
    exact ⟨x, hold x hx, hxk⟩
  · intro p hp
    obtain ⟨x, hx, hxk, hxf⟩ := hInv.proofsFunded p hp
    exact ⟨x, hold x hx, hxk, hxf⟩
  · intro p hp
    obtain ⟨x, hx, hxk, hxf⟩ := hInv.proofsDbFunded p hp
    exact ⟨x, hold x hx, hxk, hxf⟩
  · intro s hs hrel
    rcases hmem s hs with hs' | rfl
    · exact hInv.relVerified s hs' hrel
    · exact absurd hrel (by simp)
  · intro s hs hrel
    rcases hmem s hs with hs' | rfl
    · exact hInv.relEntry s hs' hrel
    · exact absurd hrel (by simp)

/-! ### Invariant preservation: Make Donation -/

theorem proofVerifiedFor_eq_false {ps : List Proof} {sid : Nat}
    (h : ∀ p ∈ ps, p.student_id ≠ sid) : proofVerifiedFor ps sid = false := by
  rw [proofVerifiedFor, List.any_eq_false]
  intro p hp
  simp only [Bool.and_eq_true, beq_iff_eq, not_and]
  intro hpid
  exact absurd hpid (h p hp)

/-- A student who is not fully funded has no proof at all (submission requires
full funding and `received` never decreases). -/
theorem proofs_not_for_underfunded {st : AppState} {ps : List Proof} {sid : Nat} {s : Student}
    (hnd : (st.students.map Student.id).Nodup)
    (hFunded : ∀ p ∈ ps, ∃ x ∈ st.students, x.id = p.student_id ∧ x.need ≤ x.received)
    (hs : getStudent st sid = some s) (hlt : ¬ s.need ≤ s.received) :
    ∀ p ∈ ps, p.student_id ≠ sid := by
  intro p hp hpid
  obtain ⟨x, hx, hxid, hxf⟩ := hFunded p hp
  have hx_eq : x = s := unique_by_id hnd hs hx (by rw [hxid, hpid])
  exact hlt (hx_eq ▸ hxf)

/-- The donate handler under its UI gate (student not fully funded): the
release evaluation never fires during a donation, because a proof can only
exist for an already fully funded student. -/
theorem donatePage_eq {st : AppState} {sid : Nat} {s : Student} (amount : ℚ) (t : String)
    (hnd : (st.students.map Student.id).Nodup)
    (hpf : ∀ p ∈ st.proofs, ∃ x ∈ st.students, x.id = p.student_id ∧ x.need ≤ x.received)
    (hs : getStudent st sid = some s) (hlt : ¬ s.need ≤ s.received) :
    donatePage st sid amount t =
      { updateStudent st { s with received := s.received + amount } with
          ledger := st.ledger ++ [donation_entry s amount t] } := by
  have hw : withTime (donation_entry s amount t) t = donation_entry s amount t :=
    withTime_of_time _ _ rfl
  have hnp : ∀ p ∈ st.proofs, p.student_id ≠ sid :=
    proofs_not_for_underfunded hnd hpf hs hlt
  have hpv : proofVerifiedFor st.proofs sid = false := proofVerifiedFor_eq_false hnp
  simp only [donatePage, hs, if_neg hlt, add_ledger, hw, updateStudent]
  apply tryAutoRelease_not_fire t
  · exact getStudent_updateStudent ({ s with received := s.received + amount }) hs rfl
  · intro hcon
    have : proofVerifiedFor st.proofs sid = true := hcon.2.1
    rw [hpv] at this
    exact Bool.noConfusion this

theorem inv_donate {st : AppState} (hInv : Inv st) (sid : Nat) (amount : ℚ) (t : String)
    (hamt : 0 ≤ amount) : Inv (donatePage st sid amount t) := by
  cases hs : getStudent st sid with
  | none =>
    have : donatePage st sid amount t = st := by simp [donatePage, hs]
    rw [this]
    exact hInv
  | some s =>
    by_cases hf : s.need ≤ s.received
    · have : donatePage st sid amount t = st := by simp [donatePage, hs, hf]
      rw [this]
      exact hInv
    · rw [donatePage_eq amount t hInv.nodup hInv.proofsFunded hs hf]
      have hsid : s.id = sid := getStudent_id hs
      have hsmem : s ∈ st.students := mem_of_getStudent hs
      have hnpdb : ∀ p ∈ st.proofs_db, p.student_id ≠ sid :=
        proofs_not_for_underfunded hInv.nodup hInv.proofsDbFunded hs hf
      have hrelf : s.released = false := by
        by_contra hrel
        have hrel' : s.released = true := by simpa using hrel
        obtain ⟨p, hp, hpid, _⟩ := hInv.relVerified s hsmem hrel'
        exact hnpdb p hp (by rw [hpid, hsid])
      have hcount : ∀ k : Nat,
          countAdminFee (st.ledger ++ [donation_entry s amount t]) k =
            countAdminFee st.ledger k := by
        intro k
        rw [countAdminFee_append]
        simp [donation_entry]
      set s' : Student := { s with received := s.received + amount } with hs'
      refine ⟨?_, ?_, ?_, ?_, ?_, ?_, ?_, ?_, ?_⟩
      · show ((updateStudent st s').students.map Student.id).Nodup
        rw [ids_updateStudent]
        exact hInv.nodup
      · intro x hx
        rcases mem_updateStudent_cases hx with rfl | ⟨hx', _⟩
        · exact hInv.flags s hsmem
        · exact hInv.flags x hx'
      · intro x hx
        show countAdminFee (st.ledger ++ [donation_entry s amount t]) x.id = _
        rw [hcount]
        rcases mem_updateStudent_cases hx with rfl | ⟨hx', _⟩
        · exact hInv.feeCount s hsmem
        · exact hInv.feeCount x hx'
      · intro e he k hk
        rcases List.mem_append.mp he with he' | he'
        · exact exists_id_updateStudent s' (hInv.ledgerRef e he' k hk)
        · have : e = donation_entry s amount t := by simpa using he'
          subst this
          have : k = s.id := by
            have := hk
            simp only [donation_entry] at this
            exact (Option.some.inj this).symm
          subst this
          exact exists_id_updateStudent s' ⟨s, hsmem, rfl⟩
      · intro p hp
        exact funded_exists_updateStudent hInv.nodup hs s' rfl rfl
          (by simpa using hamt) (hInv.proofsFunded p hp)
      · intro p hp
        exact funded_exists_updateStudent hInv.nodup hs s' rfl rfl
          (by simpa using hamt) (hInv.proofsDbFunded p hp)
      · exact relOrdered_append_other hInv.relOrder (by simp [donation_entry])
      · intro x hx hrel
        rcases mem_updateStudent_cases hx with rfl | ⟨hx', _⟩
        · rw [show s'.released = s.released from rfl, hrelf] at hrel
          exact Bool.noConfusion hrel
        · exact hInv.relVerified x hx' hrel
      · intro x hx hrel
        rcases mem_updateStudent_cases hx with rfl | ⟨hx', _⟩
        · rw [show s'.released = s.released from rfl, hrelf] at hrel
          exact Bool.noConfusion hrel
        · obtain ⟨i, e, hie, ht, hid⟩ := hInv.relEntry x hx' hrel
          exact ⟨i, e, getElem?_append_of_some hie, ht, hid⟩

/-! ### Invariant preservation: Upload Proof -/

/-- The state reached by the submit flow just before the final release
evaluation and doc-hash update: both ledger entries appended, proof lists
updated (all DB rows with the hash; first session hit only). -/
def submitStateMid (st : AppState) (s : Student) (fname h fp t : String) : AppState :=
  { st with
      ledger := (st.ledger ++ [proof_upload_entry s fname h t]) ++ [proof_verified_entry s fname h t]
      proofs := setFirstVerified (st.proofs ++ [submitProofRecord s fname h fp t]) h fp
      proofs_db := db_update_proof (st.proofs_db ++ [submitProofRecord s fname h fp t]) h fp }

theorem submitProofFlow_eq (st : AppState) (s : Student) (fname h fp t : String) :
    submitProofFlow st s fname h fp t =
      tryAutoRelease
        (updateStudent (submitStateMid st s fname h fp t) { s with doc_hash := some h })
        s.id t := by
  have hw1 : withTime (proof_upload_entry s fname h t) t = proof_upload_entry s fname h t :=
    withTime_of_time _ _ rfl
  have hw2 : withTime (proof_verified_entry s fname h t) t = proof_verified_entry s fname h t :=
    withTime_of_time _ _ rfl
  simp only [submitProofFlow, submitStateMid, add_ledger, hw1, hw2, updateStudent]

/-- Replacing a student by a snapshot that keeps id, need, both flags, and
does not decrease `received`, preserves the invariant. -/
theorem inv_updateStudent_compatible {st : AppState} (hInv : Inv st) {sid : Nat} {s : Student}
    (hs : getStudent st sid = some s) (s' : Student)
    (hid : s'.id = s.id) (hneed : s'.need = s.need) (hrecv : s.received ≤ s'.received)
    (hrel : s'.released = s.released) (hadm : s'.admin_charged = s.admin_charged) :
    Inv (updateStudent st s') := by
  have hsmem : s ∈ st.students := mem_of_getStudent hs
  refine ⟨?_, ?_, ?_, ?_, ?_, ?_, hInv.relOrder, ?_, ?_⟩
  · show ((updateStudent st s').students.map Student.id).Nodup
    rw [ids_updateStudent]
    exact hInv.nodup
  · intro x hx
    rcases mem_updateStudent_cases hx with rfl | ⟨hx', _⟩
    · rw [hrel, hadm]
      exact hInv.flags s hsmem
    · exact hInv.flags x hx'
  · intro x hx
    rcases mem_updateStudent_cases hx with rfl | ⟨hx', _⟩
    · show countAdminFee st.ledger x.id = _
      rw [hid, hadm]
      exact hInv.feeCount s hsmem
    · exact hInv.feeCount x hx'
  · intro e he k hk
    exact exists_id_updateStudent s' (hInv.ledgerRef e he k hk)
  · intro p hp
    exact funded_exists_updateStudent hInv.nodup hs s' hid hneed hrecv (hInv.proofsFunded p hp)
  · intro p hp
    exact funded_exists_updateStudent hInv.nodup hs s' hid hneed hrecv (hInv.proofsDbFunded p hp)
  · intro x hx hxrel
    rcases mem_updateStudent_cases hx with rfl | ⟨hx', _⟩
    · obtain ⟨p, hp, hpid, hpv⟩ := hInv.relVerified s hsmem (by rw [← hrel]; exact hxrel)
      exact ⟨p, hp, by rw [hpid, ← hid], hpv⟩
    · exact hInv.relVerified x hx' hxrel
  · intro x hx hxrel
    rcases mem_updateStudent_cases hx with rfl | ⟨hx', _⟩
    · obtain ⟨i, e, hie, ht, hide⟩ := hInv.relEntry s hsmem (by rw [← hrel]; exact hxrel)
      exact ⟨i, e, hie, ht, by rw [hide, ← hid]⟩
    · exact hInv.relEntry x hx' hxrel

theorem inv_submitMid {st0 : AppState} (hInv : Inv st0) {sid : Nat} {s : Student}
    (hs : getStudent st0 sid = some s) (hf : s.need ≤ s.received) (fname h fp t : String) :
    Inv (submitStateMid st0 s fname h fp t) := by
  have hsmem : s ∈ st0.students := mem_of_getStudent hs
  refine ⟨hInv.nodup, hInv.flags, ?_, ?_, ?_, ?_, ?_, ?_, ?_⟩
  · intro x hx
    show countAdminFee
      ((st0.ledger ++ [proof_upload_entry s fname h t]) ++ [proof_verified_entry s fname h t])
      x.id = _
    rw [countAdminFee_append, countAdminFee_append]
    simp only [proof_upload_entry, proof_verified_entry]
    simp only [show ((some "proof_upload" : Option String) == some "admin_fee") = false by decide,
      show ((some "proof_verified" : Option String) == some "admin_fee") = false by decide,
      Bool.false_and, if_neg (Bool.false_ne_true), Nat.add_zero]
    exact hInv.feeCount x hx
  · intro e he k hk
    rcases List.mem_append.mp he with he' | he'
    · rcases List.mem_append.mp he' with he'' | he''
      · exact hInv.ledgerRef e he'' k hk
      · have he3 : e = proof_upload_entry s fname h t := by simpa using he''
        subst he3
        have hks : s.id = k := by
          simpa [proof_upload_entry] using hk
        exact ⟨s, hsmem, hks⟩
    · have he3 : e = proof_verified_entry s fname h t := by simpa using he'
      subst he3
      have hks : s.id = k := by
        simpa [proof_verified_entry] using hk
      exact ⟨s, hsmem, hks⟩
  · intro q hq
    obtain ⟨p, hp, hqp⟩ := setFirstVerified_ids q hq
    rcases List.mem_append.mp hp with hp' | hp'
    · obtain ⟨x, hx, hxid, hxf⟩ := hInv.proofsFunded p hp'
      exact ⟨x, hx, by rw [hqp]; exact hxid, hxf⟩
    · have hp3 : p = submitProofRecord s fname h fp t := by simpa using hp'
      subst hp3
      exact ⟨s, hsmem, by rw [hqp]; rfl, hf⟩
  · intro q hq
    obtain ⟨p, hp, hqp⟩ := db_update_proof_ids q hq
    rcases List.mem_append.mp hp with hp' | hp'
    · obtain ⟨x, hx, hxid, hxf⟩ := hInv.proofsDbFunded p hp'
      exact ⟨x, hx, by rw [hqp]; exact hxid, hxf⟩
    · have hp3 : p = submitProofRecord s fname h fp t := by simpa using hp'
      subst hp3
      exact ⟨s, hsmem, by rw [hqp]; rfl, hf⟩
  · exact relOrdered_append_other
      (relOrdered_append_other hInv.relOrder (by simp [proof_upload_entry]))
      (by simp [proof_verified_entry])
  · intro x hx hxrel
    obtain ⟨p, hp, hpid, hpv⟩ := hInv.relVerified x hx hxrel
    obtain ⟨q, hq, hqid, hqv⟩ :=
      db_update_proof_keeps_verified h fp (List.mem_append_left _ hp) hpv
    exact ⟨q, hq, by rw [hqid, hpid], hqv⟩
  · intro x hx hxrel
    obtain ⟨i, e, hie, ht, hide⟩ := hInv.relEntry x hx hxrel
    exact ⟨i, e, getElem?_append_of_some (getElem?_append_of_some hie), ht, hide⟩

theorem inv_submitFlow {st0 : AppState} (hInv : Inv st0) {sid : Nat} {s : Student}
    (hpp : st0.proofs = st0.proofs_db)
    (hs : getStudent st0 sid = some s) (hf : s.need ≤ s.received)
    (hnone : ∀ p ∈ st0.proofs, p.student_id ≠ sid) (fname h fp t : String) :
    Inv (submitProofFlow st0 s fname h fp t) := by
  rw [submitProofFlow_eq]
  have hsid : s.id = sid := getStudent_id hs
  have hsmem : s ∈ st0.students := mem_of_getStudent hs
  have hsrel : s.released = false := by
    by_contra hc
    have hc' : s.released = true := by simpa using hc
    obtain ⟨p, hp, hpid, _⟩ := hInv.relVerified s hsmem hc'
    exact hnone p (by rw [hpp]; exact hp) (by rw [hpid, hsid])
  have hsadm : s.admin_charged = false := by
    rw [← hInv.flags s hsmem]
    exact hsrel
  have hInvMid : Inv (submitStateMid st0 s fname h fp t) := inv_submitMid hInv hs hf fname h fp t
  have hsMid : getStudent (submitStateMid st0 s fname h fp t) s.id = some s := by
    rw [hsid]
    exact hs
  have hInv5 : Inv (updateStudent (submitStateMid st0 s fname h fp t)
      ({ s with doc_hash := some h })) :=
    inv_updateStudent_compatible hInvMid hsMid _ rfl rfl le_rfl rfl rfl
  have hs5 : getStudent (updateStudent (submitStateMid st0 s fname h fp t)
      ({ s with doc_hash := some h })) s.id = some ({ s with doc_hash := some h }) :=
    getStudent_updateStudent _ hsMid rfl
  have hs5mem : ({ s with doc_hash := some h } : Student) ∈
      (updateStudent (submitStateMid st0 s fname h fp t) ({ s with doc_hash := some h })).students :=
    mem_updateStudent_self _ hsMid rfl
  by_cases hpv : proofVerifiedFor
      (updateStudent (submitStateMid st0 s fname h fp t) ({ s with doc_hash := some h })).proofs
      s.id = true
  · rw [tryAutoRelease_fire t hs5 hf hpv hsrel hsadm]
    set s5 : Student := { s with doc_hash := some h } with hs5def
    set E5 : AppState :=
      updateStudent (submitStateMid st0 s fname h fp t) s5 with hE5def
    show Inv (updateStudent
      { E5 with ledger := (E5.ledger ++ [admin_fee_entry s5 t]) ++ [release_entry s5 t] }
      (released_student s5))
    set E6 : AppState :=
      { E5 with ledger := (E5.ledger ++ [admin_fee_entry s5 t]) ++ [release_entry s5 t] }
      with hE6def
    have hsE6 : getStudent E6 s.id = some s5 := hs5
    have hs5memE6 : s5 ∈ E6.students := hs5mem
    have hver : E5.ledger[(st0.ledger ++ [proof_upload_entry s fname h t]).length]? =
        some (proof_verified_entry s fname h t) :=
      getElem?_concat_length _ _
    have hcount5 : countAdminFee E5.ledger s5.id = 0 := by
      have hc := hInv5.feeCount s5 hs5mem
      rw [show s5.admin_charged = false from hsadm] at hc
      simpa using hc
    refine ⟨?_, ?_, ?_, ?_, ?_, ?_, ?_, ?_, ?_⟩
    · show ((updateStudent E6 (released_student s5)).students.map Student.id).Nodup
      rw [ids_updateStudent]
      exact hInv5.nodup
    · intro x hx
      rcases mem_updateStudent_cases hx with rfl | ⟨hx', _⟩
      · rfl
      · exact hInv5.flags x hx'
    · intro x hx
      show countAdminFee ((E5.ledger ++ [admin_fee_entry s5 t]) ++ [release_entry s5 t]) x.id = _
      rw [countAdminFee_append, countAdminFee_append]
      rcases mem_updateStudent_cases hx with rfl | ⟨hx', hxid⟩
      · have hcr : countAdminFee E5.ledger (released_student s5).id = 0 := hcount5
        rw [hcr]
        simp [admin_fee_entry, release_entry, released_student]
      · have hne : ¬ s5.id = x.id := fun hcon => hxid (by rw [← hcon]; rfl)
        simp only [admin_fee_entry, release_entry]
        simp only [show ((some "release" : Option String) == some "admin_fee") = false by decide,
          Bool.false_and, if_neg (Bool.false_ne_true), Nat.add_zero]
        have : ((some s5.id : Option Nat) == some x.id) = false := by
          simpa using hne
        simp only [this, Bool.and_false, if_neg (Bool.false_ne_true), Nat.add_zero]
        exact hInv5.feeCount x hx'
    · intro e he k hk
      rcases List.mem_append.mp he with he' | he'
      · rcases List.mem_append.mp he' with he'' | he''
        · exact exists_id_updateStudent _ (hInv5.ledgerRef e he'' k hk)
        · have he3 : e = admin_fee_entry s5 t := by simpa using he''
          subst he3
          have hks : s5.id = k := by simpa [admin_fee_entry] using hk
          exact exists_id_updateStudent _ ⟨s5, hs5memE6, hks⟩
      · have he3 : e = release_entry s5 t := by simpa using he'
        subst he3
        have hks : s5.id = k := by simpa [release_entry] using hk
        exact exists_id_updateStudent _ ⟨s5, hs5memE6, hks⟩
    · intro p hp
      exact funded_exists_updateStudent hInv5.nodup hsE6 _ rfl rfl le_rfl
        (hInv5.proofsFunded p hp)
    · intro p hp
      exact funded_exists_updateStudent hInv5.nodup hsE6 _ rfl rfl le_rfl
        (hInv5.proofsDbFunded p hp)
    · show relOrdered ((E5.ledger ++ [admin_fee_entry s5 t]) ++ [release_entry s5 t])
      apply relOrdered_append_one
        (relOrdered_append_other hInv5.relOrder (by simp [admin_fee_entry]))
      intro _
      exact ⟨(st0.ledger ++ [proof_upload_entry s fname h t]).length,
        proof_verified_entry s fname h t, getElem?_append_of_some hver, rfl, rfl⟩
    · intro x hx hxrel
      rcases mem_updateStudent_cases hx with rfl | ⟨hx', _⟩
      · refine ⟨{ submitProofRecord s fname h fp t with status := "Verified", file_path := fp },
          ?_, rfl, rfl⟩
        show _ ∈ db_update_proof (st0.proofs_db ++ [submitProofRecord s fname h fp t]) h fp
        simp only [db_update_proof, List.mem_map]
        refine ⟨submitProofRecord s fname h fp t,
          List.mem_append_right _ (List.mem_singleton.mpr rfl), ?_⟩
        rw [if_pos (by simp [submitProofRecord])]
      · exact hInv5.relVerified x hx' hxrel
    · intro x hx hxrel
      rcases mem_updateStudent_cases hx with rfl | ⟨hx', _⟩
      · exact ⟨(E5.ledger ++ [admin_fee_entry s5 t]).length, release_entry s5 t,
          getElem?_concat_length _ _, rfl, rfl⟩
      · obtain ⟨i, e, hie, ht, hide⟩ := hInv5.relEntry x hx' hxrel
        exact ⟨i, e, getElem?_append_of_some (getElem?_append_of_some hie), ht, hide⟩
  · rw [tryAutoRelease_not_fire t hs5 (fun hcon => hpv hcon.2.1)]
    exact hInv5

theorem inv_upload {st : AppState} (hInv : Inv st) (sid : Nat) (fname h fp t : String) :
    Inv (uploadPage st sid fname h fp t) := by
  have hInv0 : Inv { st with proofs := st.proofs_db } := inv_reloadProofs hInv
  cases hs : getStudent ({ st with proofs := st.proofs_db } : AppState) sid with
  | none =>
    have heq : uploadPage st sid fname h fp t = { st with proofs := st.proofs_db } := by
      simp only [uploadPage, hs]
    rw [heq]
    exact hInv0
  | some s =>
    by_cases hf : s.need ≤ s.received
    · by_cases hex : (({ st with proofs := st.proofs_db } : AppState).proofs.any
          (fun p => p.student_id == sid)) = true
      · have heq : uploadPage st sid fname h fp t = { st with proofs := st.proofs_db } := by
          simp only [uploadPage, hs]
          rw [if_neg (not_not_intro hf), if_pos hex]
        rw [heq]
        exact hInv0
      · have heq : uploadPage st sid fname h fp t =
            submitProofFlow { st with proofs := st.proofs_db } s fname h fp t := by
          simp only [uploadPage, hs]
          rw [if_neg (not_not_intro hf), if_neg hex]
        rw [heq]
        have hnone : ∀ p ∈ ({ st with proofs := st.proofs_db } : AppState).proofs,
            p.student_id ≠ sid := by
          intro p hp hpid
          apply hex
          rw [List.any_eq_true]
          exact ⟨p, hp, by simp [hpid]⟩
        exact inv_submitFlow hInv0 rfl hs hf hnone fname h fp t
    · have heq : uploadPage st sid fname h fp t = { st with proofs := st.proofs_db } := by
        simp only [uploadPage, hs]
        rw [if_pos hf]
      rw [heq]
      exact hInv0

theorem inv_step {st st' : AppState} (hInv : Inv st) (hstep : Step st st') : Inv st' := by
  cases hstep with
  | addStudent name story need hneed => exact inv_addStudent hInv name story need
  | donate sid amount t hamt => exact inv_donate hInv sid amount t (le_trans zero_le_one hamt)
  | upload sid fname hsh fp t => exact inv_upload hInv sid fname hsh fp t
  | reloadProofs => exact inv_reloadProofs hInv
  | reloadLedger => exact inv_reloadLedger hInv

theorem inv_reachable {st : AppState} (hr : Reachable st) : Inv st := by
  induction hr with
  | init => exact inv_init
  | step hr hstep ih => exact inv_step ih hstep

/-- The example run reaches `exSt5`. -/
theorem reachable_exSt5 : Reachable exSt5 := by
  have h1 : Reachable exSt1 :=
    Reachable.step Reachable.init (Step.donate initState 3 1000 "t1" (by norm_num))
  have h2 : Reachable exSt2 :=
    Reachable.step h1 (Step.upload exSt1 3 "proof.pdf" "h" "uploads/p" "t2")
  have h3 : Reachable exSt3 :=
    Reachable.step h2 (Step.donate exSt2 2 1500 "t3" (by norm_num))
  have h4 : Reachable exSt4 :=
    Reachable.step h3 (Step.upload exSt3 2 "proof2.pdf" "h" "uploads/q" "t4")
  exact Reachable.step h4 (Step.reloadProofs exSt4)

/-! ### Claims C1, C2, C6 -/

/-- Claim C1: in every reachable state, for a beneficiary with
`received ≥ need`, a `Verified` proof in the proof registry, and
`released = false`, the release evaluation appends the `admin_fee` entry
(`adminFee = round(need * FEE_RATE, 2)` and
`studentAmount = round(need - adminFee, 2)`, the fields of
`admin_fee_entry`), then the `release` entry (`amountReleased = need`, the
fields of `release_entry`), and sets the beneficiary's flags; if any of the
three eligibility conditions fails, the evaluation changes neither the
beneficiary nor the ledger. -/
theorem claim_C1_release_effect (st : AppState) (hr : Reachable st) (sid : Nat) (s : Student)
    (t : String) (hs : getStudent st sid = some s) :
    (s.received ≥ s.need ∧ proofVerifiedFor st.proofs sid = true ∧ s.released = false →
      tryAutoRelease st sid t =
        { st with
            ledger := (st.ledger ++ [admin_fee_entry s t]) ++ [release_entry s t]
            students := st.students.map
              (fun x => if x.id == (released_student s).id then released_student s else x) }) ∧
    (¬(s.received ≥ s.need ∧ proofVerifiedFor st.proofs sid = true ∧ s.released = false) →
      tryAutoRelease st sid t = st) := by
  have hInv := inv_reachable hr
  constructor
  · rintro ⟨hf, hv, hrel⟩
    have hadm : s.admin_charged = false := by
      rw [← hInv.flags s (mem_of_getStudent hs)]
      exact hrel
    exact tryAutoRelease_fire t hs hf hv hrel hadm
  · intro hcon
    apply tryAutoRelease_not_fire t hs
    intro hc
    exact hcon ⟨hc.1, hc.2.1, hc.2.2⟩

set_option maxRecDepth 40000 in
/-- Witness for C1 at `exSt5`: Ben is fully funded, his proof is `Verified`
after the cache reload, and he is not yet released — the positive branch of
the claim applies to him. -/
theorem claim_C1_witness :
    (benEligible.received ≥ benEligible.need ∧ proofVerifiedFor exSt5.proofs 2 = true ∧
        benEligible.released = false →
      tryAutoRelease exSt5 2 "w" =
        { exSt5 with
            ledger := (exSt5.ledger ++ [admin_fee_entry benEligible "w"]) ++
              [release_entry benEligible "w"]
            students := exSt5.students.map
              (fun x => if x.id == (released_student benEligible).id then
                released_student benEligible else x) }) ∧
    (¬(benEligible.received ≥ benEligible.need ∧ proofVerifiedFor exSt5.proofs 2 = true ∧
        benEligible.released = false) →
      tryAutoRelease exSt5 2 "w" = exSt5) :=
  claim_C1_release_effect exSt5 reachable_exSt5 2 benEligible "w" (by with_unfolding_all decide)

/-- Claim C2: in every reachable state, the number of `admin_fee` ledger
entries of a beneficiary is 1 when `adminCharged` is set and 0 otherwise (so
an entry exists iff the flag is set, and never more than one); and on a
beneficiary whose `adminCharged` flag is already set the release evaluation
appends no further `admin_fee` entry. -/
theorem claim_C2_admin_fee_once (st : AppState) (hr : Reachable st) :
    (∀ s ∈ st.students,
      countAdminFee st.ledger s.id = (if s.admin_charged = true then 1 else 0)) ∧
    (∀ (sid : Nat) (s : Student) (t : String), getStudent st sid = some s →
      s.admin_charged = true →
      countAdminFee (tryAutoRelease st sid t).ledger s.id = countAdminFee st.ledger s.id) := by
  have hInv := inv_reachable hr
  refine ⟨hInv.feeCount, ?_⟩
  intro sid s t hs hadm
  by_cases hc : s.need ≤ s.received ∧ proofVerifiedFor st.proofs sid = true ∧ s.released = false
  · rw [tryAutoRelease_fire_charged t hs hc.1 hc.2.1 hc.2.2 hadm]
    show countAdminFee (st.ledger ++ [release_entry s t]) s.id = _
    rw [countAdminFee_append]
    simp [release_entry]
  · rw [tryAutoRelease_not_fire t hs hc]

/-- Witness for C2 at the reachable state `exSt5` (which holds one
`admin_fee` entry, Cindy's). -/
theorem claim_C2_witness :
    (∀ s ∈ exSt5.students,
      countAdminFee exSt5.ledger s.id = (if s.admin_charged = true then 1 else 0)) ∧
    (∀ (sid : Nat) (s : Student) (t : String), getStudent exSt5 sid = some s →
      s.admin_charged = true →
      countAdminFee (tryAutoRelease exSt5 sid t).ledger s.id =
        countAdminFee exSt5.ledger s.id) :=
  claim_C2_admin_fee_once exSt5 reachable_exSt5

/-- Claim C6: in every reachable state the ledger is release-ordered — every
`release` entry is preceded by a `proof_verified` entry of the same
beneficiary — and every beneficiary with `released = true` has a `Verified`
proof in the proof store and a `release` ledger entry preceded by a
`proof_verified` entry of that beneficiary. -/
theorem claim_C6_release_after_verification (st : AppState) (hr : Reachable st) :
    relOrdered st.ledger ∧
    (∀ s ∈ st.students, s.released = true →
      (∃ p ∈ st.proofs_db, p.student_id = s.id ∧ p.status = "Verified") ∧
      ∃ (i : Nat) (e : Entry), st.ledger[i]? = some e ∧ e.type = some "release" ∧
        e.student_id = some s.id ∧
        ∃ (j : Nat) (e' : Entry), j < i ∧ st.ledger[j]? = some e' ∧
          e'.type = some "proof_verified" ∧ e'.student_id = some s.id) := by
  have hInv := inv_reachable hr
  refine ⟨hInv.relOrder, ?_⟩
  intro s hsm hrel
  refine ⟨hInv.relVerified s hsm hrel, ?_⟩
  obtain ⟨i, e, hie, ht, hid⟩ := hInv.relEntry s hsm hrel
  obtain ⟨j, e', hj, hje', ht', hs'⟩ := hInv.relOrder i e hie ht
  exact ⟨i, e, hie, ht, hid, j, e', hj, hje', ht', by rw [hs', hid]⟩

/-- Witness for C6 at the reachable state `exSt5` (Cindy is released there,
with her `proof_verified` entry before her `release` entry). -/
theorem claim_C6_witness :
    relOrdered exSt5.ledger ∧
    (∀ s ∈ exSt5.students, s.released = true →
      (∃ p ∈ exSt5.proofs_db, p.student_id = s.id ∧ p.status = "Verified") ∧
      ∃ (i : Nat) (e : Entry), exSt5.ledger[i]? = some e ∧ e.type = some "release" ∧
        e.student_id = some s.id ∧
        ∃ (j : Nat) (e' : Entry), j < i ∧ exSt5.ledger[j]? = some e' ∧
          e'.type = some "proof_verified" ∧ e'.student_id = some s.id) :=
  claim_C6_release_after_verification exSt5 reachable_exSt5

end TrustChain
